import Mathlib

/-!
Verification of the `base-acme-client` request-signing and retry engine.

This file gives a shallow embedding of the core of `src/base-acme-client.js`:
the base64url/hex codec, the JWS construction (`signPayload`), the JWK
thumbprint (`createJsonWebKey`), the two retry loops
(`fetchAndRetryUntilOk`, `fetchAndRetryProtectedUntilOk`) and the local
error synthesis (`notCompletedError`), together with theorems settling the
frozen claims about them.

Modelling conventions:
* JS strings are Lean `String`s; byte sequences (`Uint8Array`/`Buffer`) are
  `List Nat` with values `< 256` where that matters.
* The HTTP transport is abstracted as a function from the index of the
  network call to its outcome (a response or a thrown exception); the
  `newNonce` collaborator of the protected loop is abstracted as a function
  from the index of the nonce-acquisition call to its result.
* The `while (a <= attempts)` loops, whose counter increases by exactly one
  per iteration, are embedded with a structurally decreasing `fuel`
  parameter kept equal to `attempts + 1 - a`; every definition is total and
  executable.
* The loops return, besides the JS return value, the list of observable
  events of the run (network calls, signings, backoff delays) so that the
  temporal claims can be read off the trace.
-/

namespace BaseAcme

/-! ## Codec: base64url encoding (from `base64urlEncode`, lines 445-452) -/

/-- The standard base64 alphabet, by sextet value (`Buffer.toString('base64')`). -/
def b64Char (n : Nat) : Char :=
  if n < 26 then Char.ofNat (65 + n)
  else if n < 52 then Char.ofNat (71 + n)
  else if n < 62 then Char.ofNat (n - 4)
  else if n = 62 then '+'
  else '/'

/-- Standard base64 of a byte list, three bytes to four chars, `=`-padded,
as produced by `Buffer.from(input).toString('base64')`. -/
def base64Chars : List Nat → List Char
  | [] => []
  | [a] => [b64Char (a / 4), b64Char (a % 4 * 16), '=', '=']
  | [a, b] => [b64Char (a / 4), b64Char (a % 4 * 16 + b / 16), b64Char (b % 16 * 4), '=']
  | a :: b :: c :: rest =>
      b64Char (a / 4) :: b64Char (a % 4 * 16 + b / 16) ::
      b64Char (b % 16 * 4 + c / 64) :: b64Char (c % 64) :: base64Chars rest

/-- The `.replace(/\+/g, '-')` step. -/
def plusToMinus (c : Char) : Char := if c = '+' then '-' else c

/-- The `.replace(/\//g, '_')` step. -/
def slashToUnderscore (c : Char) : Char := if c = '/' then '_' else c

/-- The `.replace(/=+$/, '')` step: remove trailing `=` characters. -/
def stripTrailingEq (l : List Char) : List Char :=
  (l.reverse.dropWhile (· == '=')).reverse

/-- `base64urlEncode` (lines 445-452): standard base64 of the input bytes,
then `+`→`-`, then `/`→`_`, then strip trailing `=`. -/
def base64urlEncode (input : List Nat) : String :=
  ⟨stripTrailingEq (((base64Chars input).map plusToMinus).map slashToUnderscore)⟩

/-- Modelled from the spec: the inverse alphabet of the reference base64url
decoder (`A`-`Z`, `a`-`z`, `0`-`9`, `-`, `_` to sextet values); the decoder
itself is not part of the repository source. -/
def sexOfChar (c : Char) : Nat :=
  if 'A' ≤ c ∧ c ≤ 'Z' then c.toNat - 65
  else if 'a' ≤ c ∧ c ≤ 'z' then c.toNat - 71
  else if '0' ≤ c ∧ c ≤ '9' then c.toNat + 4
  else if c = '-' then 62
  else if c = '_' then 63
  else 0

/-- Modelled from the spec: regroup a list of sextets into bytes, four
sextets to three bytes, with a trailing group of three or two sextets
yielding two bytes or one byte. -/
def sextetsToBytes : List Nat → List Nat
  | s1 :: s2 :: s3 :: s4 :: rest =>
      (s1 * 4 + s2 / 16) :: (s2 % 16 * 16 + s3 / 4) :: (s3 % 4 * 64 + s4) ::
        sextetsToBytes rest
  | [s1, s2, s3] => [s1 * 4 + s2 / 16, s2 % 16 * 16 + s3 / 4]
  | [s1, s2] => [s1 * 4 + s2 / 16]
  | _ => []

/-- Modelled from the spec: the reference base64url decoder (the repository
only ships the encoder); maps each character to its sextet and regroups
sextets into bytes. -/
def base64urlDecode (s : String) : List Nat :=
  sextetsToBytes (s.data.map sexOfChar)

/-! ## UTF-8 (from `new TextEncoder().encode(...)`) -/

/-- UTF-8 encoding of one code point, as `TextEncoder` produces it. -/
def utf8Char (c : Char) : List Nat :=
  let n := c.toNat
  if n < 128 then [n]
  else if n < 2048 then [192 + n / 64, 128 + n % 64]
  else if n < 65536 then [224 + n / 4096, 128 + n / 64 % 64, 128 + n % 64]
  else [240 + n / 262144, 128 + n / 4096 % 64, 128 + n / 64 % 64, 128 + n % 64]

/-- UTF-8 bytes of a string (`new TextEncoder().encode(s)`). -/
def utf8Bytes (s : String) : List Nat :=
  s.data.flatMap utf8Char

/-- JavaScript `String.prototype.length`: the number of UTF-16 code units
(astral code points count twice). -/
def jsStringLength (s : String) : Nat :=
  (s.data.map (fun c => if c.toNat < 65536 then 1 else 2)).sum

/-! ## Signer (from `signPayload`, lines 399-414) -/

/-- The JWS wire object `{signature, payload, protected}` built by
`signPayload`; the JS field `protected` is a Lean keyword, so it is named
`protected64` here. -/
structure Jws where
  signature : String
  payload : String
  protected64 : String
deriving DecidableEq, Repr

/-- `signPayload` (lines 399-414). `signFn` abstracts
`sign("sha256", input, {dsaEncoding: 'ieee-p1363', key: privateKey})` as a
function from the signing-input string to the raw signature bytes;
`protectedHeaderJson` stands for `JSON.stringify(protectedHeader)`. The
`payload` field is set to the base64url encoding only when the JS length of
the payload exceeds one (`if (payload.length > 1)` in the source). -/
def signPayload (signFn : String → List Nat) (payload : String)
    (protectedHeaderJson : String) : Jws :=
  let payload64 := base64urlEncode (utf8Bytes payload)
  let protected64 := base64urlEncode (utf8Bytes protectedHeaderJson)
  ⟨base64urlEncode (signFn (protected64 ++ "." ++ payload64)),
   if 1 < jsStringLength payload then payload64 else "",
   protected64⟩

/-! ## Codec: hex decoding (from `hexToBytes`, lines 462-468) -/

/-- Hexadecimal digit predicate of JavaScript `parseInt(_, 16)`. -/
def isHexDigit (c : Char) : Bool :=
  ('0' ≤ c ∧ c ≤ '9') ∨ ('a' ≤ c ∧ c ≤ 'f') ∨ ('A' ≤ c ∧ c ≤ 'F')

/-- Value of a hexadecimal digit. -/
def hexDigitVal (c : Char) : Nat :=
  if '0' ≤ c ∧ c ≤ '9' then c.toNat - 48
  else if 'a' ≤ c ∧ c ≤ 'f' then c.toNat - 87
  else c.toNat - 55

/-- JavaScript whitespace, as skipped by `parseInt` (the code points that
matter for two-character substrings of a hex string). -/
def isJsWhitespace (c : Char) : Bool :=
  c = ' ' ∨ c = '\t' ∨ c = '\n' ∨ c = '\x0d' ∨ c = '\x0c' ∨ c = '\x0b'

/-- JavaScript `parseInt(s, 16)`: skip whitespace, optional sign, optional
`0x`/`0X` prefix, then the longest prefix of hex digits; `none` models
`NaN` (no digits). -/
def jsParseInt16 (s : List Char) : Option Int :=
  let s1 := s.dropWhile isJsWhitespace
  let signAndRest : Int × List Char :=
    match s1 with
    | '+' :: r => (1, r)
    | '-' :: r => (-1, r)
    | _ => (1, s1)
  let s3 : List Char :=
    match signAndRest.2 with
    | '0' :: 'x' :: r => r
    | '0' :: 'X' :: r => r
    | _ => signAndRest.2
  let digits := s3.takeWhile isHexDigit
  if digits.isEmpty then none
  else some (signAndRest.1 * (digits.foldl (fun acc d => acc * 16 + (hexDigitVal d : Int)) 0))

/-- Storing a JS number into a `Uint8Array` slot (`ToUint8`): `NaN` stores
`0`, other values are taken modulo 256. -/
def toUint8 : Option Int → Nat
  | none => 0
  | some i => (i % 256).toNat

/-- `hexToBytes` (lines 462-468), with exact JS semantics: the result array
has `⌊hex.length / 2⌋` slots (`new Uint8Array(hex.length / 2)` truncates a
fractional length), the loop writes `parseInt(hex.substring(i, i+2), 16)`
through `ToUint8` at slot `i / 2`, and for odd length the final write is
out of bounds and silently dropped.  The function never throws. -/
def hexToBytes (hex : String) : List Nat :=
  ((List.range ((hex.length + 1) / 2)).map
    (fun k => toUint8 (jsParseInt16 ((hex.data.drop (2 * k)).take 2)))).take
    (hex.length / 2)

/-! ## Transport model and the unauthenticated retry loop
(from `fetchAndRetryUntilOk`, lines 549-574) -/

/-- A settled HTTP response: `ok` is `Response.ok` (status in the 2xx
range), `status` and `body` carry the observable payload. -/
structure Resp where
  ok : Bool
  status : Nat
  body : String
deriving DecidableEq, Repr

/-- Outcome of one transport call: either the fetch throws (DNS/connection
error) or it settles with a response. -/
inductive FetchOutcome where
  | exn
  | resp (r : Resp)
deriving DecidableEq, Repr

/-- Observable events of one run of `fetchAndRetryUntilOk`: the `idx`-th
fetch call with its outcome, or a backoff wait of `ms` milliseconds. -/
inductive FetchEv where
  | fetch (idx : Nat) (outcome : FetchOutcome)
  | delay (ms : Nat)
deriving DecidableEq, Repr

/-- Body of the `while (a <= attempts)` loop of `fetchAndRetryUntilOk`
(lines 549-574).  `tr` maps the zero-based index of a fetch call to its
outcome; the call made in the iteration entered with counter `a` is the
`(a-1)`-th.  `fuel = attempts + 1 - a` makes the recursion structural.
Mirrors the source: `a++` first; on a thrown fetch only a log happens (no
backoff wait); on an ok response or on a non-ok response with
`a > attempts` the response is returned; otherwise a wait of `650 * a`
milliseconds precedes the next iteration; `undefined` (here `none`) is
returned when the loop exits. -/
def retryGo (tr : Nat → FetchOutcome) (attempts : Nat) :
    Nat → Nat → List FetchEv × Option Resp
  | 0, _ => ([], none)
  | fuel + 1, a =>
    match tr (a - 1) with
    | .exn =>
        let rest := retryGo tr attempts fuel (a + 1)
        (.fetch (a - 1) .exn :: rest.1, rest.2)
    | .resp r =>
        if r.ok then ([.fetch (a - 1) (.resp r)], some r)
        else if attempts < a + 1 then ([.fetch (a - 1) (.resp r)], some r)
        else
          let rest := retryGo tr attempts fuel (a + 1)
          (.fetch (a - 1) (.resp r) :: .delay (650 * (a + 1)) :: rest.1, rest.2)

/-- `fetchAndRetryUntilOk(fetchInput, init, attempts)` (lines 549-574):
run the loop from `a = 1` (so with `attempts` units of fuel), returning
the trace of events and the JS return value. -/
def fetchAndRetryUntilOk (tr : Nat → FetchOutcome) (attempts : Nat) :
    List FetchEv × Option Resp :=
  retryGo tr attempts attempts 1

/-- Number of fetch calls in a trace. -/
def countFetchEvents : List FetchEv → Nat
  | [] => 0
  | .fetch _ _ :: rest => countFetchEvents rest + 1
  | .delay _ :: rest => countFetchEvents rest

/-- Number of backoff waits in a trace. -/
def countDelayEvents : List FetchEv → Nat
  | [] => 0
  | .delay _ :: rest => countDelayEvents rest + 1
  | .fetch _ _ :: rest => countDelayEvents rest

/-- Whether a transport outcome is a 2xx response (`response.ok`). -/
def okOutcome : FetchOutcome → Bool
  | .exn => false
  | .resp r => r.ok

/-- Whether a transport outcome is a settled non-2xx response. -/
def isNonOkResp : FetchOutcome → Bool
  | .exn => false
  | .resp r => !r.ok

/-- The response of a settled outcome (`none` for a thrown fetch). -/
def outcomeResp : FetchOutcome → Option Resp
  | .exn => none
  | .resp r => some r

/-! ## The authenticated retry loop
(from `fetchAndRetryProtectedUntilOk`, lines 609-653) -/

/-- JavaScript truthiness of `nextNonce.nonce`: an absent value
(`undefined`/`null`) and the empty string are falsy. -/
def truthy : Option String → Bool
  | none => false
  | some s => !(s == "")

/-- Observable events of one run of `fetchAndRetryProtectedUntilOk`:
the `idx`-th nonce-acquisition call (`newNonce`) with its result, a signing
of the payload with the nonce placed in the protected header, the `idx`-th
signed POST with its outcome, and a backoff wait. -/
inductive PEvent where
  | nonceCall (idx : Nat) (result : Option String)
  | signEv (nonce : String)
  | postEv (idx : Nat) (outcome : FetchOutcome)
  | delayEv (ms : Nat)
deriving DecidableEq, Repr

/-- Body of the `while (a <= attempts)` loop of
`fetchAndRetryProtectedUntilOk` (lines 609-653).  `ns` maps the zero-based
index of a `newNonce(acmeDirectory.newNonce)` call to the nonce it yields
(`none` for an unavailable nonce), `tr` maps the zero-based index of a
signed POST to its outcome, `nonce?` is the current
`protectedHeader.nonce`, and `fuel = attempts + 1 - a` makes the recursion
structural.  Mirrors the source: `a++` first; with no nonce in the header
one is acquired, and on a falsy result the attempt fails with a
`650 * a` wait and `continue` (no signing, no POST); otherwise the payload
is signed with the header's nonce and POSTed; an ok response, or a non-ok
response with `a > attempts`, is returned; a non-ok response with attempts
remaining clears `protectedHeader.nonce` and waits `2250 * a`; a thrown
POST is only logged — the nonce is left in the header and no wait
happens. -/
def protGo (ns : Nat → Option String) (tr : Nat → FetchOutcome) (attempts : Nat) :
    Nat → Nat → Nat → Nat → Option String → List PEvent × Option Resp
  | 0, _, _, _, _ => ([], none)
  | fuel + 1, a, nIdx, pIdx, nonce? =>
    match nonce? with
    | none =>
      if truthy (ns nIdx) then
        let n := (ns nIdx).getD ""
        match tr pIdx with
        | .exn =>
            let rest := protGo ns tr attempts fuel (a + 1) (nIdx + 1) (pIdx + 1) (some n)
            (.nonceCall nIdx (ns nIdx) :: .signEv n :: .postEv pIdx .exn :: rest.1, rest.2)
        | .resp r =>
            if r.ok then
              ([.nonceCall nIdx (ns nIdx), .signEv n, .postEv pIdx (.resp r)], some r)
            else if attempts < a + 1 then
              ([.nonceCall nIdx (ns nIdx), .signEv n, .postEv pIdx (.resp r)], some r)
            else
              let rest := protGo ns tr attempts fuel (a + 1) (nIdx + 1) (pIdx + 1) none
              (.nonceCall nIdx (ns nIdx) :: .signEv n :: .postEv pIdx (.resp r) ::
                .delayEv (2250 * (a + 1)) :: rest.1, rest.2)
      else
        let rest := protGo ns tr attempts fuel (a + 1) (nIdx + 1) pIdx none
        (.nonceCall nIdx (ns nIdx) :: .delayEv (650 * (a + 1)) :: rest.1, rest.2)
    | some n =>
      match tr pIdx with
      | .exn =>
          let rest := protGo ns tr attempts fuel (a + 1) nIdx (pIdx + 1) (some n)
          (.signEv n :: .postEv pIdx .exn :: rest.1, rest.2)
      | .resp r =>
          if r.ok then ([.signEv n, .postEv pIdx (.resp r)], some r)
          else if attempts < a + 1 then ([.signEv n, .postEv pIdx (.resp r)], some r)
          else
            let rest := protGo ns tr attempts fuel (a + 1) nIdx (pIdx + 1) none
            (.signEv n :: .postEv pIdx (.resp r) :: .delayEv (2250 * (a + 1)) :: rest.1,
              rest.2)

/-- `fetchAndRetryProtectedUntilOk(payload, protectedHeader, privateKey,
acmeDirectory, attempts)` (lines 609-653): run the loop from `a = 1` with
the initial `protectedHeader.nonce` (`nonce0`), returning the trace of
events and the JS return value.  The payload and keys do not influence the
control flow and are abstracted away. -/
def fetchAndRetryProtectedUntilOk (ns : Nat → Option String)
    (tr : Nat → FetchOutcome) (nonce0 : Option String) (attempts : Nat) :
    List PEvent × Option Resp :=
  protGo ns tr attempts attempts 1 0 0 nonce0

/-- Nonces used by the signing events of a trace, in order. -/
def signNonces : List PEvent → List String
  | [] => []
  | .signEv n :: rest => n :: signNonces rest
  | .nonceCall _ _ :: rest => signNonces rest
  | .postEv _ _ :: rest => signNonces rest
  | .delayEv _ :: rest => signNonces rest

/-- Number of signed POST calls in a trace. -/
def countPostEvents : List PEvent → Nat
  | [] => 0
  | .postEv _ _ :: rest => countPostEvents rest + 1
  | .nonceCall _ _ :: rest => countPostEvents rest
  | .signEv _ :: rest => countPostEvents rest
  | .delayEv _ :: rest => countPostEvents rest

/-- Number of nonce-acquisition calls in a trace. -/
def countNonceCalls : List PEvent → Nat
  | [] => 0
  | .nonceCall _ _ :: rest => countNonceCalls rest + 1
  | .signEv _ :: rest => countNonceCalls rest
  | .postEv _ _ :: rest => countNonceCalls rest
  | .delayEv _ :: rest => countNonceCalls rest

/-- Number of backoff waits in a trace of the protected loop. -/
def countPDelayEvents : List PEvent → Nat
  | [] => 0
  | .delayEv _ :: rest => countPDelayEvents rest + 1
  | .nonceCall _ _ :: rest => countPDelayEvents rest
  | .signEv _ :: rest => countPDelayEvents rest
  | .postEv _ _ :: rest => countPDelayEvents rest

/-! ## Local error synthesis (from `notCompletedError` and
`errorTemplate`, lines 655-672) and the operation epilogue -/

/-- An ACME problem-document-shaped error object
(`{type, detail, status}`). -/
structure ErrorDoc where
  type : String
  detail : String
  status : Nat
deriving DecidableEq, Repr

/-- The `{error: {...}}` wrapper built by `errorTemplate`. -/
structure ErrorEnvelope where
  error : ErrorDoc
deriving DecidableEq, Repr

/-- `errorTemplate(type, details, status)` (lines 664-672).  The `detail`
carried by the exception branch is modelled as a string. -/
def errorTemplate (type details : String) (status : Nat) : ErrorEnvelope :=
  ⟨⟨type, details, status⟩⟩

/-- The `{answer: {error: ...}}` object returned by `notCompletedError`. -/
structure NotCompletedReturn where
  answer : ErrorEnvelope
deriving DecidableEq, Repr

/-- `notCompletedError(error, exception)` (lines 655-662): with no (or a
falsy) exception, a `bac:failed:<op>` error with a fixed message and the
sentinel status `777777`; with a truthy exception, a `bac:exception:<op>`
error carrying the exception. -/
def notCompletedError (error : String) (exception : Option String) :
    NotCompletedReturn :=
  ⟨if truthy exception then
      errorTemplate ("bac:exception:" ++ error) (exception.getD "") 777777
    else
      errorTemplate ("bac:failed:" ++ error)
        ("Could not complete " ++ error ++ " after multiple attempts") 777777⟩

/-- What an operation of the Operation Layer receives from its `try` body:
the retry engine's return value (a response or `undefined`), or an
exception that was thrown. -/
inductive FetchedOrThrow where
  | fetched (r : Option Resp)
  | thrown (e : String)
deriving DecidableEq, Repr

/-- Result of `newDirectory` (lines 39-56): the parsed directory on an ok
response, the parsed error body on a non-ok response, or a synthesized
`notCompletedError`. -/
inductive DirectoryResult where
  | directory (body : String)
  | error (body : String)
  | notCompleted (r : NotCompletedReturn)
deriving DecidableEq, Repr

/-- `newDirectory(mainDirectoryUrl)` (lines 39-56), as a function of what
its `try` body observes: an ok response yields the parsed body, a non-ok
response yields the parsed error body, an absent response yields
`notCompletedError("newDirectory")`, and a thrown exception yields
`notCompletedError("newDirectory", exception)`. -/
def newDirectory : FetchedOrThrow → DirectoryResult
  | .fetched (some r) => if r.ok then .directory r.body else .error r.body
  | .fetched none => .notCompleted (notCompletedError "newDirectory" none)
  | .thrown e => .notCompleted (notCompletedError "newDirectory" (some e))

/-- The epilogue every Operation Layer function shares (`newDirectory`,
`createAccount`, `createOrder`, `finalizeOrder`, `postAsGet`,
`postAsGetChal`, lines 52-55, 161-164, 212-215, 267-270, 318-321,
369-372): when the retry engine returned a response the operation handles
it itself (no synthesized error, `none` here); when it returned
`undefined` the operation returns `notCompletedError(op)`; when the `try`
body threw it returns `notCompletedError(op, exception)`. -/
def operationEpilogue (op : String) : FetchedOrThrow → Option NotCompletedReturn
  | .fetched (some _) => none
  | .fetched none => some (notCompletedError op none)
  | .thrown e => some (notCompletedError op (some e))

/-! ## JWK thumbprint (from `createJsonWebKey`, lines 110-114) -/

/-- An exported JSON Web Key for an EC public key: the four canonical
fields, plus whatever additional members the export may carry. -/
structure Jwk where
  kty : String
  crv : String
  x : String
  y : String
  extra : List (String × String)
deriving DecidableEq, Repr

/-- A hexadecimal digit character, as used by `JSON.stringify` escapes. -/
def hexDigitChar (n : Nat) : Char :=
  if n < 10 then Char.ofNat (48 + n) else Char.ofNat (87 + n)

/-- `JSON.stringify` escaping of one character of a string value. -/
def jsonEscapeChar (c : Char) : List Char :=
  if c = '"' then ['\\', '"']
  else if c = '\\' then ['\\', '\\']
  else if c = '\x08' then ['\\', 'b']
  else if c = '\t' then ['\\', 't']
  else if c = '\n' then ['\\', 'n']
  else if c = '\x0c' then ['\\', 'f']
  else if c = '\x0d' then ['\\', 'r']
  else if c.toNat < 32 then
    ['\\', 'u', '0', '0', hexDigitChar (c.toNat / 16), hexDigitChar (c.toNat % 16)]
  else [c]

/-- A JSON string literal, as `JSON.stringify` renders a string. -/
def jsonQuote (s : String) : String :=
  "\"" ++ ⟨s.data.flatMap jsonEscapeChar⟩ ++ "\""

/-- The members of a JSON object, in insertion order, comma separated. -/
def jsonMembers : List (String × String) → String
  | [] => ""
  | [kv] => jsonQuote kv.1 ++ ":" ++ jsonQuote kv.2
  | kv :: rest => jsonQuote kv.1 ++ ":" ++ jsonQuote kv.2 ++ "," ++ jsonMembers rest

/-- `JSON.stringify` of an object whose values are strings, keys in
insertion order. -/
def jsonStringifyObj (fields : List (String × String)) : String :=
  "\x7b" ++ jsonMembers fields ++ "\x7d"

/-- `createJsonWebKey(publicKey)` (lines 110-114).  `hash` abstracts
`createHash("sha256").update(bytes).digest()`; `jwk` is the JWK the
`publicKey.export({format: 'jwk'})` call yields.  The code builds the
object literal `{crv: jwk.crv, kty: jwk.kty, x: jwk.x, y: jwk.y}` (so
exactly those members, in that insertion order), stringifies it, encodes
it as UTF-8, hashes it and base64url-encodes the digest. -/
def createJsonWebKey (hash : List Nat → List Nat) (jwk : Jwk) : Jwk × String :=
  (jwk,
   base64urlEncode (hash (utf8Bytes (jsonStringifyObj
     [("crv", jwk.crv), ("kty", jwk.kty), ("x", jwk.x), ("y", jwk.y)]))))

/-- Modelled from the spec: the RFC 7638 thumbprint input as §4.2 of the
spec words it — the JWK restricted to the four canonical EC fields
`crv, kty, x, y`, serialized as a JSON object in that fixed field order. -/
def thumbprintInputSpec (jwk : Jwk) : String :=
  "\x7b" ++ jsonQuote "crv" ++ ":" ++ jsonQuote jwk.crv ++ "," ++
    jsonQuote "kty" ++ ":" ++ jsonQuote jwk.kty ++ "," ++
    jsonQuote "x" ++ ":" ++ jsonQuote jwk.x ++ "," ++
    jsonQuote "y" ++ ":" ++ jsonQuote jwk.y ++ "\x7d"

/-! ## Helper lemmas about the codec -/

/-- Applying the two url-safe replacements to any base64-alphabet character
never yields `=` (checked over all 64 sextet values). -/
theorem urlChar_ne_eq_all :
    ∀ n : Fin 64, ((slashToUnderscore (plusToMinus (b64Char n.val))) == '=') = false := by
  decide

/-- The reference decoder's inverse alphabet inverts the encoder's alphabet
composed with the url-safe replacements (checked over all 64 sextet
values). -/
theorem sex_urlChar_all :
    ∀ n : Fin 64, sexOfChar (slashToUnderscore (plusToMinus (b64Char n.val))) = n.val := by
  decide

theorem urlChar_beq_eq_false {n : Nat} (h : n < 64) :
    ((slashToUnderscore (plusToMinus (b64Char n))) == '=') = false :=
  urlChar_ne_eq_all ⟨n, h⟩

theorem sex_urlChar {n : Nat} (h : n < 64) :
    sexOfChar (slashToUnderscore (plusToMinus (b64Char n))) = n :=
  sex_urlChar_all ⟨n, h⟩

theorem dropWhile_of_forall_not {p : Char → Bool} :
    ∀ w : List Char, (∀ c ∈ w, p c = false) → w.dropWhile p = w
  | [], _ => rfl
  | c :: t, h => by
      have hc : p c = false := h c (List.mem_cons_self c t)
      simp [List.dropWhile_cons, hc]

theorem dropWhile_append_of_eq_nil {p : Char → Bool} :
    ∀ u v : List Char, u.dropWhile p = [] → (u ++ v).dropWhile p = v.dropWhile p
  | [], _, _ => rfl
  | c :: t, v, h => by
      by_cases hc : p c = true
      · simp only [List.dropWhile_cons, hc, if_true] at h
        simpa [List.dropWhile_cons, hc] using dropWhile_append_of_eq_nil t v h
      · simp [List.dropWhile_cons, hc] at h

theorem dropWhile_append_of_ne_nil {p : Char → Bool} :
    ∀ u v : List Char, u.dropWhile p ≠ [] → (u ++ v).dropWhile p = u.dropWhile p ++ v
  | [], _, h => absurd rfl h
  | c :: t, v, h => by
      by_cases hc : p c = true
      · simp only [List.cons_append, List.dropWhile_cons, hc, if_true] at h ⊢
        exact dropWhile_append_of_ne_nil t v h
      · simp [List.dropWhile_cons, hc]

/-- Stripping trailing `=` from `l₁ ++ l₂` removes characters from `l₂`
only, as long as `l₁` contains no `=`. -/
theorem stripTrailingEq_append (l₁ l₂ : List Char)
    (h : ∀ c ∈ l₁, (c == '=') = false) :
    stripTrailingEq (l₁ ++ l₂) = l₁ ++ stripTrailingEq l₂ := by
  unfold stripTrailingEq
  rw [List.reverse_append]
  rcases hcase : l₂.reverse.dropWhile (· == '=') with _ | ⟨c, t⟩
  · rw [dropWhile_append_of_eq_nil _ _ hcase,
      dropWhile_of_forall_not _ (by intro ch hch; exact h ch (by simpa using hch)),
      List.reverse_reverse]
    simp
  · rw [dropWhile_append_of_ne_nil _ _ (by rw [hcase]; simp), hcase]
    simp

/-- Structural induction on a byte list in the three-byte chunks the
base64 encoder consumes. -/
theorem byteChunks_induction {P : List Nat → Prop} (h0 : P []) (h1 : ∀ a, P [a])
    (h2 : ∀ a b, P [a, b]) (h3 : ∀ a b c rest, P rest → P (a :: b :: c :: rest)) :
    ∀ l, P l
  | [] => h0
  | [a] => h1 a
  | [a, b] => h2 a b
  | a :: b :: c :: rest => h3 a b c rest (byteChunks_induction h0 h1 h2 h3 rest)

/-- C8: for every byte sequence `x` (each byte `< 256`), including the
empty sequence and sequences whose standard base64 form contains `+`, `/`
or padding, decoding `base64urlEncode x` with the reference base64url
decoder yields `x` again; `base64urlEncode` is a total function with no
error conditions. -/
theorem base64urlDecode_base64urlEncode (x : List Nat) (hx : ∀ b ∈ x, b < 256) :
    base64urlDecode (base64urlEncode x) = x := by
  refine @byteChunks_induction
    (fun l => (∀ b ∈ l, b < 256) → base64urlDecode (base64urlEncode l) = l)
    ?_ ?_ ?_ ?_ x hx
  · intro _
    rfl
  · intro a h
    have ha : a < 256 := h a (by simp)
    have h1 : a / 4 < 64 := by omega
    have h2 : a % 4 * 16 < 64 := by omega
    simp only [base64urlEncode, base64Chars, List.map_cons, List.map_nil,
      base64urlDecode, stripTrailingEq]
    rw [show [slashToUnderscore (plusToMinus (b64Char (a / 4))),
          slashToUnderscore (plusToMinus (b64Char (a % 4 * 16))),
          slashToUnderscore (plusToMinus '='), slashToUnderscore (plusToMinus '=')]
        = [slashToUnderscore (plusToMinus (b64Char (a / 4))),
          slashToUnderscore (plusToMinus (b64Char (a % 4 * 16)))] ++ ['=', '='] from rfl]
    rw [List.reverse_append]
    rw [dropWhile_append_of_eq_nil _ _ (by simp [List.dropWhile_cons])]
    rw [dropWhile_of_forall_not _ (by
      intro c hc
      simp only [List.mem_reverse, List.mem_cons, List.not_mem_nil, or_false] at hc
      rcases hc with rfl | rfl
      · exact urlChar_beq_eq_false h1
      · exact urlChar_beq_eq_false h2)]
    rw [List.reverse_reverse]
    show sextetsToBytes (List.map sexOfChar _) = [a]
    simp only [List.map_cons, List.map_nil, sex_urlChar h1, sex_urlChar h2]
    simp only [sextetsToBytes]
    congr 1
    omega
  · intro a b h
    have ha : a < 256 := h a (by simp)
    have hb : b < 256 := h b (by simp)
    have h1 : a / 4 < 64 := by omega
    have h2 : a % 4 * 16 + b / 16 < 64 := by omega
    have h3 : b % 16 * 4 < 64 := by omega
    simp only [base64urlEncode, base64Chars, List.map_cons, List.map_nil,
      base64urlDecode, stripTrailingEq]
    rw [show [slashToUnderscore (plusToMinus (b64Char (a / 4))),
          slashToUnderscore (plusToMinus (b64Char (a % 4 * 16 + b / 16))),
          slashToUnderscore (plusToMinus (b64Char (b % 16 * 4))),
          slashToUnderscore (plusToMinus '=')]
        = [slashToUnderscore (plusToMinus (b64Char (a / 4))),
          slashToUnderscore (plusToMinus (b64Char (a % 4 * 16 + b / 16))),
          slashToUnderscore (plusToMinus (b64Char (b % 16 * 4)))] ++ ['='] from rfl]
    rw [List.reverse_append]
    rw [dropWhile_append_of_eq_nil _ _ (by simp [List.dropWhile_cons])]
    rw [dropWhile_of_forall_not _ (by
      intro c hc
      simp only [List.mem_reverse, List.mem_cons, List.not_mem_nil, or_false] at hc
      rcases hc with rfl | rfl | rfl
      · exact urlChar_beq_eq_false h1
      · exact urlChar_beq_eq_false h2
      · exact urlChar_beq_eq_false h3)]
    rw [List.reverse_reverse]
    show sextetsToBytes (List.map sexOfChar _) = [a, b]
    simp only [List.map_cons, List.map_nil, sex_urlChar h1, sex_urlChar h2, sex_urlChar h3]
    simp only [sextetsToBytes]
    simp only [List.cons.injEq, and_true]
    exact ⟨by omega, by omega⟩
  · intro a b c rest ih h
    have ha : a < 256 := h a (by simp)
    have hb : b < 256 := h b (by simp)
    have hc : c < 256 := h c (by simp)
    have hrest : ∀ y ∈ rest, y < 256 := fun y hy => h y (by simp [hy])
    have h1 : a / 4 < 64 := by omega
    have h2 : a % 4 * 16 + b / 16 < 64 := by omega
    have h3 : b % 16 * 4 + c / 64 < 64 := by omega
    have h4 : c % 64 < 64 := by omega
    have ihe := ih hrest
    simp only [base64urlEncode, base64Chars, List.map_cons, base64urlDecode] at ihe ⊢
    rw [show (slashToUnderscore (plusToMinus (b64Char (a / 4))) ::
          slashToUnderscore (plusToMinus (b64Char (a % 4 * 16 + b / 16))) ::
          slashToUnderscore (plusToMinus (b64Char (b % 16 * 4 + c / 64))) ::
          slashToUnderscore (plusToMinus (b64Char (c % 64))) ::
          ((base64Chars rest).map plusToMinus).map slashToUnderscore)
        = [slashToUnderscore (plusToMinus (b64Char (a / 4))),
           slashToUnderscore (plusToMinus (b64Char (a % 4 * 16 + b / 16))),
           slashToUnderscore (plusToMinus (b64Char (b % 16 * 4 + c / 64))),
           slashToUnderscore (plusToMinus (b64Char (c % 64)))] ++
          ((base64Chars rest).map plusToMinus).map slashToUnderscore from rfl]
    rw [stripTrailingEq_append _ _ (by
      intro ch hch
      simp only [List.mem_cons, List.not_mem_nil, or_false] at hch
      rcases hch with rfl | rfl | rfl | rfl
      · exact urlChar_beq_eq_false h1
      · exact urlChar_beq_eq_false h2
      · exact urlChar_beq_eq_false h3
      · exact urlChar_beq_eq_false h4)]
    show sextetsToBytes (List.map sexOfChar _) = a :: b :: c :: rest
    simp only [List.cons_append, List.nil_append]
    simp only [List.map_cons, sex_urlChar h1, sex_urlChar h2, sex_urlChar h3, sex_urlChar h4]
    simp only [sextetsToBytes]
    simp only [List.cons.injEq]
    exact ⟨by omega, by omega, by omega, ihe⟩

/-- Witness for C8 at the empty sequence and at `[251, 255]`, whose
standard base64 form `+/8=` contains `+`, `/` and padding. -/
theorem base64urlDecode_base64urlEncode_witness :
    base64urlDecode (base64urlEncode []) = [] ∧
    base64urlDecode (base64urlEncode [251, 255]) = [251, 255] :=
  ⟨base64urlDecode_base64urlEncode [] (by decide),
   base64urlDecode_base64urlEncode [251, 255] (by decide)⟩

/-- C1 (failing input): the code sets the JWS `payload` field only when
`payload.length > 1`, so the one-character payload `"0"` — whose base64url
encoding is the non-empty string `"MA"`, which the claim and the spec
require as the `payload` field — produces a JWS with an *empty* `payload`
field, while a two-character payload is encoded as expected.  The
signature input still contains the encoded payload, so the emitted JWS is
internally inconsistent for one-character payloads. -/
theorem signPayload_one_char_payload_empty :
    (signPayload (fun _ => []) "0" "hdr").payload = "" ∧
    base64urlEncode (utf8Bytes "0") = "MA" ∧
    (signPayload (fun _ => []) "00" "hdr").payload = "MDA" ∧
    (signPayload (fun _ => []) "" "hdr").payload = "" := by
  refine ⟨rfl, by decide, by decide, rfl⟩

/-- C4 (failing input): with a transport that throws on every attempt and
`attempts = 3`, `fetchAndRetryUntilOk` performs exactly three fetch calls
and returns `undefined` (`none`), but performs *zero* backoff waits: the
`catch` branch of the source only logs the exception and re-enters the
loop immediately, skipping the delay that follows a non-2xx response. -/
theorem fetchAndRetryUntilOk_throwing_transport_no_backoff :
    fetchAndRetryUntilOk (fun _ => .exn) 3 =
      ([.fetch 0 .exn, .fetch 1 .exn, .fetch 2 .exn], none) ∧
    countFetchEvents (fetchAndRetryUntilOk (fun _ => .exn) 3).1 = 3 ∧
    countDelayEvents (fetchAndRetryUntilOk (fun _ => .exn) 3).1 = 0 ∧
    (fetchAndRetryUntilOk (fun _ => .exn) 3).2 = none := by
  refine ⟨by decide, by decide, by decide, by decide⟩

/-- C7 (failing input): `hexToBytes` never fails.  On the all-non-hex
input `"zz"` JavaScript's `parseInt` yields `NaN`, which the `Uint8Array`
stores as `0`; on the odd-length input `"abc"` the array has one slot
(`Uint8Array(1.5)` truncates), the final out-of-bounds write is dropped
and `[0xab]` is returned; a partially hex pair like `"1z"` decodes its
leading digit.  Even-length all-hex strings decode correctly, as on
`"00ff"`. -/
theorem hexToBytes_never_fails :
    hexToBytes "zz" = [0] ∧
    hexToBytes "abc" = [171] ∧
    hexToBytes "1z2z" = [1, 2] ∧
    hexToBytes "00ff" = [0, 255] ∧
    hexToBytes "" = [] := by
  refine ⟨by decide, by decide, by decide, by decide, by decide⟩

/-- C6: when the retry engine returns no response at all, every Operation
Layer function synthesizes a `bac:failed:<operation>` error whose numeric
status is the sentinel `777777`, distinct from every real HTTP status; and
when an exception is thrown it synthesizes a `bac:exception:<operation>`
error carrying the exception.  Stated for the shared epilogue at an
arbitrary operation name and for `newDirectory` concretely. -/
theorem notCompletedError_shapes (op e : String) (he : e ≠ "") :
    (notCompletedError op none).answer.error.type = "bac:failed:" ++ op ∧
    (notCompletedError op none).answer.error.status = 777777 ∧
    (notCompletedError op (some e)).answer.error.type = "bac:exception:" ++ op ∧
    (notCompletedError op (some e)).answer.error.detail = e ∧
    (notCompletedError op (some e)).answer.error.status = 777777 ∧
    (∀ s, 100 ≤ s → s ≤ 599 → (notCompletedError op none).answer.error.status ≠ s) ∧
    operationEpilogue op (.fetched none) = some (notCompletedError op none) ∧
    operationEpilogue op (.thrown e) = some (notCompletedError op (some e)) ∧
    newDirectory (.fetched none) = .notCompleted (notCompletedError "newDirectory" none) ∧
    newDirectory (.thrown e) = .notCompleted (notCompletedError "newDirectory" (some e)) := by
  have hbeq : (e == "") = false := by
    simpa using he
  refine ⟨rfl, rfl, ?_, ?_, ?_, ?_, rfl, rfl, rfl, rfl⟩
  · simp [notCompletedError, truthy, hbeq, errorTemplate]
  · simp [notCompletedError, truthy, hbeq, errorTemplate]
  · simp [notCompletedError, truthy, hbeq, errorTemplate]
  · intro s hs1 hs2
    simp only [notCompletedError, truthy, errorTemplate, Bool.false_eq_true, if_false]
    omega

/-- Witness for C6 at the operation name `"createOrder"` and the exception
`"boom"`. -/
theorem notCompletedError_shapes_witness :
    (notCompletedError "createOrder" none).answer.error.type = "bac:failed:createOrder" ∧
    (notCompletedError "createOrder" (some "boom")).answer.error.type =
      "bac:exception:createOrder" ∧
    (notCompletedError "createOrder" (some "boom")).answer.error.detail = "boom" := by
  have h := notCompletedError_shapes "createOrder" "boom" (by decide)
  exact ⟨h.1, h.2.2.1, h.2.2.2.1⟩

/-- C9: the thumbprint computed by `createJsonWebKey` is the base64url
encoding of the hash (SHA-256 in the source, abstracted here) of the UTF-8
bytes of the JSON serialization of exactly the four EC fields
`crv, kty, x, y` of the exported JWK, in that fixed field order; in
particular it ignores any additional exported members, and the returned
key is the exported JWK itself. -/
theorem createJsonWebKey_thumbprint (hash : List Nat → List Nat) (jwk : Jwk) :
    (createJsonWebKey hash jwk).2 =
      base64urlEncode (hash (utf8Bytes (thumbprintInputSpec jwk))) ∧
    (createJsonWebKey hash jwk).1 = jwk ∧
    (∀ extra, (createJsonWebKey hash ⟨jwk.kty, jwk.crv, jwk.x, jwk.y, extra⟩).2 =
      (createJsonWebKey hash jwk).2) := by
  refine ⟨?_, rfl, fun extra => rfl⟩
  simp [createJsonWebKey, thumbprintInputSpec, jsonStringifyObj, jsonMembers,
    String.append_assoc]

/-! ## Helper lemmas about the unauthenticated retry loop -/

theorem countFetchEvents_retryGo_le (tr : Nat → FetchOutcome) (attempts : Nat) :
    ∀ fuel a, countFetchEvents (retryGo tr attempts fuel a).1 ≤ fuel := by
  intro fuel
  induction fuel with
  | zero =>
    intro a
    simp [retryGo, countFetchEvents]
  | succ f ih =>
    intro a
    cases htr : tr (a - 1) with
    | exn =>
      simp only [retryGo, htr]
      simpa [countFetchEvents] using Nat.succ_le_succ (ih (a + 1))
    | resp r =>
      by_cases hok : r.ok
      · simp [retryGo, htr, hok, countFetchEvents]
      · by_cases hlt : attempts < a + 1
        · simp [retryGo, htr, hok, hlt, countFetchEvents]
        · simp only [retryGo, htr, hok, hlt]
          simpa [countFetchEvents] using Nat.succ_le_succ (ih (a + 1))

theorem retryGo_first_ok (tr : Nat → FetchOutcome) (attempts : Nat) :
    ∀ fuel a j, j < fuel → 1 ≤ a → attempts + 1 = a + fuel →
      okOutcome (tr (a - 1 + j)) = true →
      (∀ k, k < j → okOutcome (tr (a - 1 + k)) = false) →
      (retryGo tr attempts fuel a).2 = outcomeResp (tr (a - 1 + j)) ∧
      countFetchEvents (retryGo tr attempts fuel a).1 = j + 1 := by
  intro fuel
  induction fuel with
  | zero =>
    intro a j hj
    exact absurd hj (by omega)
  | succ f ih =>
    intro a j hj ha hatt hok hbefore
    cases j with
    | zero =>
      cases htr : tr (a - 1) with
      | exn =>
        rw [Nat.add_zero] at hok
        rw [htr] at hok
        simp [okOutcome] at hok
      | resp r =>
        have hr : r.ok = true := by
          rw [Nat.add_zero] at hok
          rw [htr] at hok
          simpa [okOutcome] using hok
        simp [retryGo, htr, hr, outcomeResp, countFetchEvents]
    | succ j' =>
      have hnot : okOutcome (tr (a - 1)) = false := by
        have h0 := hbefore 0 (Nat.succ_pos j')
        simpa using h0
      have hidx : a - 1 + (j' + 1) = a + 1 - 1 + j' := by omega
      have hok' : okOutcome (tr (a + 1 - 1 + j')) = true := by
        rw [← hidx]
        exact hok
      have hbefore' : ∀ k, k < j' → okOutcome (tr (a + 1 - 1 + k)) = false := by
        intro k hk
        have hb := hbefore (k + 1) (by omega)
        have : a - 1 + (k + 1) = a + 1 - 1 + k := by omega
        rw [← this]
        exact hb
      cases htr : tr (a - 1) with
      | exn =>
        have ihr := ih (a + 1) j' (by omega) (by omega) (by omega) hok' hbefore'
        constructor
        · simp only [retryGo, htr]
          rw [hidx]
          exact ihr.1
        · simp only [retryGo, htr, countFetchEvents]
          rw [ihr.2]
      | resp r =>
        have hr : r.ok = false := by
          rw [htr] at hnot
          simpa [okOutcome] using hnot
        have hcond : ¬ (attempts < a + 1) := by omega
        have ihr := ih (a + 1) j' (by omega) (by omega) (by omega) hok' hbefore'
        constructor
        · simp only [retryGo, htr, hr, hcond, if_false, Bool.false_eq_true]
          rw [hidx]
          exact ihr.1
        · simp only [retryGo, htr, hr, hcond, if_false, Bool.false_eq_true,
            countFetchEvents]
          rw [ihr.2]

theorem retryGo_all_non_ok (tr : Nat → FetchOutcome) (attempts : Nat) :
    ∀ fuel a, 1 ≤ fuel → 1 ≤ a → attempts + 1 = a + fuel →
      (∀ k, isNonOkResp (tr k) = true) →
      (retryGo tr attempts fuel a).2 = outcomeResp (tr (a - 1 + (fuel - 1))) := by
  intro fuel
  induction fuel with
  | zero =>
    intro a h
    exact absurd h (by omega)
  | succ f ih =>
    intro a _ ha hatt hall
    cases htr : tr (a - 1) with
    | exn =>
      have hk := hall (a - 1)
      rw [htr] at hk
      simp [isNonOkResp] at hk
    | resp r =>
      have hr : r.ok = false := by
        have hk := hall (a - 1)
        rw [htr] at hk
        simpa [isNonOkResp] using hk
      by_cases hf : f = 0
      · subst hf
        have hcond : attempts < a + 1 := by omega
        simp [retryGo, htr, hr, hcond, outcomeResp]
      · have hcond : ¬ (attempts < a + 1) := by omega
        have ihr := ih (a + 1) (by omega) (by omega) (by omega) hall
        have hstep : (retryGo tr attempts (f + 1) a).2 = (retryGo tr attempts f (a + 1)).2 := by
          simp only [retryGo, htr, hr, hcond, if_false, Bool.false_eq_true]
        rw [hstep, ihr]
        have hidx2 : a + 1 - 1 + (f - 1) = a - 1 + (f + 1 - 1) := by omega
        rw [hidx2]

/-- C3: for every transport behaviour and attempt bound,
`fetchAndRetryUntilOk` returns the first 2xx response immediately — making
exactly as many fetch calls as needed to reach it and none after it — and
when every attempt settles with a non-2xx response it returns the last
such response (not absence) once the attempt bound is exhausted. -/
theorem fetchAndRetryUntilOk_first_ok_and_last_failure
    (tr : Nat → FetchOutcome) (attempts : Nat) :
    (∀ j, j < attempts → okOutcome (tr j) = true →
      (∀ k, k < j → okOutcome (tr k) = false) →
      (fetchAndRetryUntilOk tr attempts).2 = outcomeResp (tr j) ∧
      countFetchEvents (fetchAndRetryUntilOk tr attempts).1 = j + 1) ∧
    (1 ≤ attempts → (∀ k, isNonOkResp (tr k) = true) →
      (fetchAndRetryUntilOk tr attempts).2 = outcomeResp (tr (attempts - 1)) ∧
      (fetchAndRetryUntilOk tr attempts).2 ≠ none) := by
  constructor
  · intro j hj hok hbefore
    have h := retryGo_first_ok tr attempts attempts 1 j hj (le_refl 1) (by omega)
      (by simpa using hok) (by simpa using hbefore)
    simpa [fetchAndRetryUntilOk] using h
  · intro hatt hall
    have h := retryGo_all_non_ok tr attempts attempts 1 hatt (le_refl 1) (by omega) hall
    have hidx : (1 : Nat) - 1 + (attempts - 1) = attempts - 1 := by omega
    rw [hidx] at h
    refine ⟨h, ?_⟩
    simp only [fetchAndRetryUntilOk] at h ⊢
    rw [h]
    have hk := hall (attempts - 1)
    cases htr : tr (attempts - 1) with
    | exn =>
      rw [htr] at hk
      simp [isNonOkResp] at hk
    | resp r =>
      simp [htr, outcomeResp]

/-- Witness for C3: a transport whose second call (index 1) is the first
2xx response, and a transport that always answers 500. -/
theorem fetchAndRetryUntilOk_first_ok_and_last_failure_witness :
    ((fetchAndRetryUntilOk (fun k => .resp ⟨k == 1, 200, ""⟩) 6).2 =
      outcomeResp (.resp ⟨true, 200, ""⟩) ∧
     countFetchEvents (fetchAndRetryUntilOk (fun k => .resp ⟨k == 1, 200, ""⟩) 6).1 = 2) ∧
    (fetchAndRetryUntilOk (fun _ => .resp ⟨false, 500, "err"⟩) 3).2 =
      outcomeResp (.resp ⟨false, 500, "err"⟩) := by
  constructor
  · have h := (fetchAndRetryUntilOk_first_ok_and_last_failure
      (fun k => .resp ⟨k == 1, 200, ""⟩) 6).1 1 (by omega) (by decide)
      (by decide)
    simpa using h
  · have h := ((fetchAndRetryUntilOk_first_ok_and_last_failure
      (fun _ => .resp ⟨false, 500, "err"⟩) 3).2 (by omega) (fun k => rfl)).1
    simpa using h

/-! ## Helper lemmas about the authenticated retry loop -/

theorem protGo_counts_le (ns : Nat → Option String) (tr : Nat → FetchOutcome)
    (attempts : Nat) :
    ∀ fuel a nIdx pIdx nonce?,
      countPostEvents (protGo ns tr attempts fuel a nIdx pIdx nonce?).1 ≤ fuel ∧
      countNonceCalls (protGo ns tr attempts fuel a nIdx pIdx nonce?).1 ≤ fuel := by
  intro fuel
  induction fuel with
  | zero =>
    intro a nIdx pIdx nonce?
    simp [protGo, countPostEvents, countNonceCalls]
  | succ f ih =>
    intro a nIdx pIdx nonce?
    cases nonce? with
    | none =>
      by_cases hn : truthy (ns nIdx) = true
      · cases htr : tr pIdx with
        | exn =>
          have ihr := ih (a + 1) (nIdx + 1) (pIdx + 1) (some ((ns nIdx).getD ""))
          have h1 := ihr.1
          have h2 := ihr.2
          simp only [protGo, hn, htr, if_true]
          constructor
          · simp only [countPostEvents]
            omega
          · simp only [countNonceCalls]
            omega
        | resp r =>
          by_cases hok : r.ok = true
          · simp [protGo, hn, htr, hok, countPostEvents, countNonceCalls]
          · by_cases hcond : attempts < a + 1
            · simp [protGo, hn, htr, hok, hcond, countPostEvents, countNonceCalls]
            · have ihr := ih (a + 1) (nIdx + 1) (pIdx + 1) none
              have h1 := ihr.1
              have h2 := ihr.2
              simp only [protGo, hn, htr, hok, hcond, if_true, if_false,
                Bool.false_eq_true]
              constructor
              · simp only [countPostEvents]
                omega
              · simp only [countNonceCalls]
                omega
      · have hn' : truthy (ns nIdx) = false := by simpa using hn
        have ihr := ih (a + 1) (nIdx + 1) pIdx none
        have h1 := ihr.1
        have h2 := ihr.2
        simp only [protGo, hn', Bool.false_eq_true, if_false]
        constructor
        · simp only [countPostEvents]
          omega
        · simp only [countNonceCalls]
          omega
    | some n =>
      cases htr : tr pIdx with
      | exn =>
        have ihr := ih (a + 1) nIdx (pIdx + 1) (some n)
        have h1 := ihr.1
        have h2 := ihr.2
        simp only [protGo, htr]
        constructor
        · simp only [countPostEvents]
          omega
        · simp only [countNonceCalls]
          omega
      | resp r =>
        by_cases hok : r.ok = true
        · simp [protGo, htr, hok, countPostEvents, countNonceCalls]
        · by_cases hcond : attempts < a + 1
          · simp [protGo, htr, hok, hcond, countPostEvents, countNonceCalls]
          · have ihr := ih (a + 1) nIdx (pIdx + 1) none
            have h1 := ihr.1
            have h2 := ihr.2
            simp only [protGo, htr, hok, hcond, if_false, Bool.false_eq_true]
            constructor
            · simp only [countPostEvents]
              omega
            · simp only [countNonceCalls]
              omega

/-- C10: both retry loops terminate (they are total structural recursions
on the remaining attempt budget) and perform at most `attempts` network
calls: `fetchAndRetryUntilOk` makes at most `attempts` fetch calls, and
`fetchAndRetryProtectedUntilOk` makes at most `attempts` signed POST calls
and at most `attempts` nonce-acquisition requests — for every transport
behaviour (any mix of thrown exceptions, non-2xx and 2xx responses), every
nonce-endpoint behaviour, every initial nonce and every attempt bound. -/
theorem retry_loops_bound_network_calls (tr ptr : Nat → FetchOutcome)
    (ns : Nat → Option String) (nonce0 : Option String) (attempts : Nat) :
    countFetchEvents (fetchAndRetryUntilOk tr attempts).1 ≤ attempts ∧
    countPostEvents (fetchAndRetryProtectedUntilOk ns ptr nonce0 attempts).1 ≤ attempts ∧
    countNonceCalls (fetchAndRetryProtectedUntilOk ns ptr nonce0 attempts).1 ≤ attempts :=
  ⟨countFetchEvents_retryGo_le tr attempts attempts 1,
   (protGo_counts_le ns ptr attempts attempts 1 0 0 nonce0).1,
   (protGo_counts_le ns ptr attempts attempts 1 0 0 nonce0).2⟩

theorem protGo_nonce_unavailable_run (ns : Nat → Option String)
    (tr : Nat → FetchOutcome) (attempts : Nat)
    (hns : ∀ i, truthy (ns i) = false) :
    ∀ fuel a nIdx pIdx,
      signNonces (protGo ns tr attempts fuel a nIdx pIdx none).1 = [] ∧
      countPostEvents (protGo ns tr attempts fuel a nIdx pIdx none).1 = 0 ∧
      countNonceCalls (protGo ns tr attempts fuel a nIdx pIdx none).1 = fuel ∧
      countPDelayEvents (protGo ns tr attempts fuel a nIdx pIdx none).1 = fuel ∧
      (protGo ns tr attempts fuel a nIdx pIdx none).2 = none := by
  intro fuel
  induction fuel with
  | zero =>
    intro a nIdx pIdx
    simp [protGo, signNonces, countPostEvents, countNonceCalls, countPDelayEvents]
  | succ f ih =>
    intro a nIdx pIdx
    have hn := hns nIdx
    have ihr := ih (a + 1) (nIdx + 1) pIdx
    simp only [protGo, hn, Bool.false_eq_true, if_false]
    refine ⟨?_, ?_, ?_, ?_, ihr.2.2.2.2⟩
    · simp only [signNonces]
      exact ihr.1
    · simp only [countPostEvents]
      exact ihr.2.1
    · simp only [countNonceCalls]
      rw [ihr.2.2.1]
    · simp only [countPDelayEvents]
      rw [ihr.2.2.2.1]

/-- C5: in `fetchAndRetryProtectedUntilOk`, when the protected header has
no nonce and acquisition fails, that attempt is treated as failed with no
signing and no signed network call, exactly one backoff delay is consumed
(650·2 = 1300 ms for the first attempt), and the loop continues with the
next attempt rather than aborting: the run proceeds as the same loop with
one attempt consumed.  When acquisition fails on every attempt, every one
of the `attempts` attempts makes its nonce call and consumes its backoff
delay, no POST is ever made and the loop runs to full exhaustion. -/
theorem fetchAndRetryProtected_nonce_failure_consumes_attempt
    (ns : Nat → Option String) (tr : Nat → FetchOutcome) (attempts : Nat) :
    (1 ≤ attempts → truthy (ns 0) = false →
      fetchAndRetryProtectedUntilOk ns tr none attempts =
        (.nonceCall 0 (ns 0) :: .delayEv 1300 ::
            (protGo ns tr attempts (attempts - 1) 2 1 0 none).1,
          (protGo ns tr attempts (attempts - 1) 2 1 0 none).2)) ∧
    ((∀ i, truthy (ns i) = false) →
      signNonces (fetchAndRetryProtectedUntilOk ns tr none attempts).1 = [] ∧
      countPostEvents (fetchAndRetryProtectedUntilOk ns tr none attempts).1 = 0 ∧
      countNonceCalls (fetchAndRetryProtectedUntilOk ns tr none attempts).1 = attempts ∧
      countPDelayEvents (fetchAndRetryProtectedUntilOk ns tr none attempts).1 = attempts ∧
      (fetchAndRetryProtectedUntilOk ns tr none attempts).2 = none) := by
  constructor
  · intro hatt hn
    obtain ⟨k, rfl⟩ : ∃ k, attempts = k + 1 := ⟨attempts - 1, by omega⟩
    simp only [fetchAndRetryProtectedUntilOk]
    simp only [protGo, hn, Bool.false_eq_true, if_false]
    norm_num
  · intro hns
    have h := protGo_nonce_unavailable_run ns tr attempts hns attempts 1 0 0
    simpa [fetchAndRetryProtectedUntilOk] using h

/-- Witness for C5: a nonce endpoint that never yields a nonce and a
throwing transport, with two attempts. -/
theorem fetchAndRetryProtected_nonce_failure_witness :
    fetchAndRetryProtectedUntilOk (fun _ => none) (fun _ => .exn) none 2 =
      (.nonceCall 0 none :: .delayEv 1300 ::
          (protGo (fun _ => none) (fun _ => .exn) 2 1 2 1 0 none).1,
        (protGo (fun _ => none) (fun _ => .exn) 2 1 2 1 0 none).2) ∧
    countPostEvents
      (fetchAndRetryProtectedUntilOk (fun _ => none) (fun _ => .exn) none 2).1 = 0 ∧
    countPDelayEvents
      (fetchAndRetryProtectedUntilOk (fun _ => none) (fun _ => .exn) none 2).1 = 2 := by
  have h := fetchAndRetryProtected_nonce_failure_consumes_attempt
    (fun _ => none) (fun _ => .exn) 2
  exact ⟨h.1 (by omega) rfl, (h.2 (fun i => rfl)).2.1, (h.2 (fun i => rfl)).2.2.2.1⟩

theorem protGo_fresh_nonces_aux (g : Nat → String) (f : Nat → Resp)
    (attempts : Nat) (hg : ∀ i, g i ≠ "") (hf : ∀ k, (f k).ok = false) :
    ∀ fuel a nIdx pIdx, attempts + 1 = a + fuel →
      signNonces (protGo (fun i => some (g i)) (fun k => .resp (f k)) attempts
          fuel a nIdx pIdx none).1
        = (List.range fuel).map (fun i => g (nIdx + i)) := by
  intro fuel
  induction fuel with
  | zero =>
    intro a nIdx pIdx hatt
    simp [protGo, signNonces]
  | succ fu ih =>
    intro a nIdx pIdx hatt
    have htru : truthy (some (g nIdx)) = true := by
      simp [truthy, hg nIdx]
    have hok : (f pIdx).ok = false := hf pIdx
    by_cases hfu : fu = 0
    · subst hfu
      have hcond : attempts < a + 1 := by omega
      simp [protGo, htru, hok, hcond, signNonces, List.range_succ]
    · have hcond : ¬ (attempts < a + 1) := by omega
      have ihr := ih (a + 1) (nIdx + 1) (pIdx + 1) (by omega)
      have hstep : signNonces (protGo (fun i => some (g i)) (fun k => .resp (f k))
            attempts (fu + 1) a nIdx pIdx none).1
          = g nIdx :: signNonces (protGo (fun i => some (g i)) (fun k => .resp (f k))
            attempts fu (a + 1) (nIdx + 1) (pIdx + 1) none).1 := by
        simp only [protGo, htru, hok, hcond, if_true, if_false, Bool.false_eq_true,
          Option.getD_some]
        simp [signNonces]
      rw [hstep, ihr]
      rw [List.range_succ_eq_map, List.map_cons, List.map_map]
      simp only [List.cons.injEq]
      constructor
      · simp
      · refine List.map_congr_left ?_
        intro i _
        show g (nIdx + 1 + i) = g (nIdx + (i + 1))
        congr 1
        omega

/-- C2 (amended): after a non-2xx response with attempts remaining the
nonce field is cleared before the next attempt, so in a run in which every
POST settles with a non-2xx response (no thrown POSTs) and the nonce
endpoint always yields a nonce, attempt `k` signs with the `k`-th freshly
acquired nonce: the signed nonces are exactly `g 0, g 1, …` in order, and
they are pairwise distinct whenever the nonce source never repeats a
value.  (The unamended universal claim fails on thrown POSTs, which leave
the nonce in the header — see the counterexample.) -/
theorem fetchAndRetryProtected_fresh_nonce_per_attempt (g : Nat → String)
    (f : Nat → Resp) (attempts : Nat) (hg : ∀ i, g i ≠ "")
    (hf : ∀ k, (f k).ok = false) :
    signNonces (fetchAndRetryProtectedUntilOk (fun i => some (g i))
        (fun k => .resp (f k)) none attempts).1 = (List.range attempts).map g ∧
    (Function.Injective g →
      (signNonces (fetchAndRetryProtectedUntilOk (fun i => some (g i))
        (fun k => .resp (f k)) none attempts).1).Nodup) := by
  have h := protGo_fresh_nonces_aux g f attempts hg hf attempts 1 0 0 (by omega)
  have h0 : signNonces (fetchAndRetryProtectedUntilOk (fun i => some (g i))
      (fun k => .resp (f k)) none attempts).1 = (List.range attempts).map g := by
    simpa [fetchAndRetryProtectedUntilOk] using h
  refine ⟨h0, fun hinj => ?_⟩
  rw [h0]
  exact List.Nodup.map hinj (List.nodup_range attempts)

/-- Witness for C2's amended theorem: a constant nonce endpoint and an
always-500 transport over two attempts. -/
theorem fetchAndRetryProtected_fresh_nonce_witness :
    signNonces (fetchAndRetryProtectedUntilOk (fun _ => some "n")
      (fun _ => .resp ⟨false, 500, ""⟩) none 2).1 = (List.range 2).map (fun _ => "n") :=
  (fetchAndRetryProtected_fresh_nonce_per_attempt (fun _ => "n")
    (fun _ => ⟨false, 500, ""⟩) 2 (fun i => show "n" ≠ "" by decide) (fun k => rfl)).1

/-- C2 (counterexample): a nonce value can be used to sign two attempts of
the same retry loop.  With a nonce endpoint yielding `n0` then `n1` and a
transport whose first POST throws, the first attempt signs with `n0` and
throws; the exception path does not clear `protectedHeader.nonce`, so the
second attempt signs with `n0` again — the signed-nonce list of the run is
`[n0, n0, n1]`, which is not duplicate-free. -/
theorem fetchAndRetryProtected_nonce_reuse_counterexample :
    signNonces (fetchAndRetryProtectedUntilOk
        (fun i => some (if i = 0 then "n0" else "n1"))
        (fun k => if k = 0 then .exn else .resp ⟨false, 500, ""⟩) none 3).1
      = ["n0", "n0", "n1"] ∧
    ¬ (signNonces (fetchAndRetryProtectedUntilOk
        (fun i => some (if i = 0 then "n0" else "n1"))
        (fun k => if k = 0 then .exn else .resp ⟨false, 500, ""⟩) none 3).1).Nodup := by
  refine ⟨by decide, by decide⟩

end BaseAcme
